import Mathlib

/-!
A shallow embedding of `src/analyze_open_close_diff.py` (a CSV → SVG
line-chart pipeline) together with proofs about it.

Embedding conventions:
* Python `float` arithmetic is embedded as exact rational arithmetic (`ℚ`);
  all numeric literals appearing in the program are exactly representable.
* Python `datetime` objects (always constructed at midnight here) are embedded
  as a `Date` structure of numeric fields; `datetime` comparison is
  lexicographic on (year, month, day), and subtraction of two datetimes
  yields `.days` equal to the difference of proleptic-Gregorian day numbers
  (`toDays`, the standard days-from-civil computation).
* Functions that can raise (`min`/`max` of an empty sequence, CSV field
  parsing) return `Option`/`Except`; `none`/`.error` models a raised
  exception.
* The SVG document is embedded structurally: each emitted SVG line becomes an
  `SvgElem` carrying the numeric/date payloads that the Python code
  interpolates into the corresponding string; pure text formatting
  (`"%.2f"`, `"%b %Y"`) is abstracted away.
* The `while current <= max_date` label loop is embedded with explicit fuel;
  `build_svg` passes fuel provably larger than the number of iterations.
-/

namespace StockChart

/-- `SVG_WIDTH` constant of the script. -/
def SVG_WIDTH : ℚ := 1000

/-- `SVG_HEIGHT` constant of the script. -/
def SVG_HEIGHT : ℚ := 600

/-- `MARGIN_LEFT` constant of the script. -/
def MARGIN_LEFT : ℚ := 80

/-- `MARGIN_RIGHT` constant of the script. -/
def MARGIN_RIGHT : ℚ := 40

/-- `MARGIN_TOP` constant of the script. -/
def MARGIN_TOP : ℚ := 50

/-- `MARGIN_BOTTOM` constant of the script. -/
def MARGIN_BOTTOM : ℚ := 80

/-- Embedding of a Python `datetime` at midnight: only the calendar fields. -/
structure Date where
  year : ℕ
  month : ℕ
  day : ℕ
deriving DecidableEq, Repr

/-- `datetime` comparison `a <= b`: lexicographic on (year, month, day). -/
def dateLeB (a b : Date) : Bool :=
  if a.year < b.year then true
  else if b.year < a.year then false
  else if a.month < b.month then true
  else if b.month < a.month then false
  else a.day ≤ b.day

/-- `datetime` comparison `a < b`: lexicographic on (year, month, day). -/
def dateLtB (a b : Date) : Bool :=
  if a.year < b.year then true
  else if b.year < a.year then false
  else if a.month < b.month then true
  else if b.month < a.month then false
  else a.day < b.day

/-- `float` comparison `a < b`. -/
def qLtB (a b : ℚ) : Bool := decide (a < b)

/-- Days-from-civil: the proleptic Gregorian day number of a date, so that
`(d2 - d1).days` of Python datetimes equals `toDays d2 - toDays d1`. -/
def toDays (d : Date) : ℤ :=
  let y : ℤ := if d.month ≤ 2 then (d.year : ℤ) - 1 else (d.year : ℤ)
  let m : ℤ := (d.month : ℤ)
  let era : ℤ := (if 0 ≤ y then y else y - 399) / 400
  let yoe : ℤ := y - era * 400
  let doy : ℤ := (153 * (if 2 < m then m - 3 else m + 9) + 2) / 5 + (d.day : ℤ) - 1
  let doe : ℤ := yoe * 365 + yoe / 4 - yoe / 100 + doy
  era * 146097 + doe - 719468

/-- `row["Open"].replace("$", "")`: removes every occurrence of `'$'`. -/
def strip_dollars (s : String) : String :=
  String.mk (s.data.filter (fun c => c ≠ '$'))

/-- `str.split(sep)` on a single separator character, over the char list. -/
def splitOnChar (c : Char) : List Char → List (List Char)
  | [] => [[]]
  | x :: xs =>
    let r := splitOnChar c xs
    if x = c then [] :: r
    else
      match r with
      | [] => [[x]]
      | y :: ys => (x :: y) :: ys

/-- Parse a non-empty all-digit char list as a natural number. -/
def digitsToNat? (l : List Char) : Option ℕ :=
  if l ≠ [] ∧ l.all Char.isDigit then
    some (l.foldl (fun n c => n * 10 + (c.toNat - 48)) 0)
  else none

/-- Embedding of Python `float(s)` restricted to the plain decimal notation
(`digits` or `digits.digits`, optional leading minus) that price fields use. -/
def parseDecimal (s : String) : Option ℚ :=
  let core : List Char → Option ℚ := fun t =>
    match splitOnChar '.' t with
    | [intPart] => (digitsToNat? intPart).map (fun n => (n : ℚ))
    | [intPart, fracPart] =>
      match digitsToNat? intPart, digitsToNat? fracPart with
      | some a, some b => some ((a : ℚ) + (b : ℚ) / ((10 : ℚ) ^ fracPart.length))
      | _, _ => none
    | _ => none
  match s.data with
  | '-' :: rest => (core rest).map (fun q => -q)
  | l => core l

/-- Embedding of `datetime.strptime(s, "%m/%d/%Y")`: split on `'/'`, parse the
three numeric fields, validate calendar ranges. -/
def parseDate (s : String) : Option Date :=
  match splitOnChar '/' s.data with
  | [ms, ds, ys] =>
    match digitsToNat? ms, digitsToNat? ds, digitsToNat? ys with
    | some m, some d, some y =>
      if 1 ≤ m ∧ m ≤ 12 ∧ 1 ≤ d ∧ d ≤ 31 then some ⟨y, m, d⟩ else none
    | _, _, _ => none
  | _ => none

/-- One CSV data row: the `Date`, `Open` and `Close/Last` fields as text. -/
def parse_row (r : String × String × String) : Option (Date × ℚ × ℚ) :=
  match parseDate r.1, parseDecimal (strip_dollars r.2.1),
        parseDecimal (strip_dollars r.2.2) with
  | some d, some o, some c => some (d, o, c)
  | _, _, _ => none

/-- `read_price_rows`: parse every data row of the CSV (header excluded);
a malformed row raises, modelled by `none`. -/
def read_price_rows : List (String × String × String) →
    Option (List (Date × ℚ × ℚ))
  | [] => some []
  | r :: rs =>
    match parse_row r, read_price_rows rs with
    | some x, some xs => some (x :: xs)
    | _, _ => none

/-- `key = (date.year, date.month)` of the aggregation loop. -/
def monthKey (d : Date) : ℕ × ℕ := (d.year, d.month)

/-- `grouped[key].append(v)` on an insertion-ordered dict embedded as an
association list: append to the entry of `k`, or add a new entry at the end. -/
def addToGroup (g : List ((ℕ × ℕ) × List ℚ)) (k : ℕ × ℕ) (v : ℚ) :
    List ((ℕ × ℕ) × List ℚ) :=
  match g with
  | [] => [(k, [v])]
  | (k', vs) :: rest =>
    if k' = k then (k', vs ++ [v]) :: rest else (k', vs) :: addToGroup rest k v

/-- The grouping loop of `compute_monthly_average_diff`: a `defaultdict(list)`
filled in input order. -/
def groupRows (rows : List (Date × ℚ × ℚ)) : List ((ℕ × ℕ) × List ℚ) :=
  rows.foldl (fun g r => addToGroup g (monthKey r.1) (r.2.2 - r.2.1)) []

/-- Sort comparison used by `averaged.sort(key=lambda item: item[0])`. -/
def sortLe (a b : Date × ℚ) : Prop := dateLeB a.1 b.1 = true

instance : DecidableRel sortLe := fun a b => by unfold sortLe; infer_instance

/-- `compute_monthly_average_diff`: group by (year, month), average
`close - open` per group, key each group by the first of its month, sort. -/
def compute_monthly_average_diff (rows : List (Date × ℚ × ℚ)) :
    List (Date × ℚ) :=
  let averaged := (groupRows rows).map
    (fun kd => ((⟨kd.1.1, kd.1.2, 1⟩ : Date), kd.2.sum / (kd.2.length : ℚ)))
  List.insertionSort sortLe averaged

/-- Python `min(l)`: leftmost minimal element; raises (`none`) on `[]`. -/
def pyMin {α : Type} (lt : α → α → Bool) : List α → Option α
  | [] => none
  | x :: xs => some (xs.foldl (fun acc y => if lt y acc then y else acc) x)

/-- Python `max(l)`: leftmost maximal element; raises (`none`) on `[]`. -/
def pyMax {α : Type} (lt : α → α → Bool) : List α → Option α
  | [] => none
  | x :: xs => some (xs.foldl (fun acc y => if lt acc y then y else acc) x)

/-- `total_width = SVG_WIDTH - MARGIN_LEFT - MARGIN_RIGHT`. -/
def total_width : ℚ := SVG_WIDTH - MARGIN_LEFT - MARGIN_RIGHT

/-- `total_height = SVG_HEIGHT - MARGIN_TOP - MARGIN_BOTTOM`. -/
def total_height : ℚ := SVG_HEIGHT - MARGIN_TOP - MARGIN_BOTTOM

/-- `span = (max_date - min_date).days or 1` (Python `or`: 0 is falsy). -/
def spanDays (min_date max_date : Date) : ℤ :=
  let s := toDays max_date - toDays min_date
  if s = 0 then 1 else s

/-- The `date_to_x` closure of `scale_points`, with its captured extrema made
explicit parameters. -/
def date_to_x (min_date max_date : Date) (d : Date) : ℚ :=
  MARGIN_LEFT +
    (((toDays d - toDays min_date : ℤ) : ℚ) / ((spanDays min_date max_date : ℤ) : ℚ)) *
      total_width

/-- The `value_to_y` closure of `scale_points`, with its captured (possibly
widened) extrema made explicit parameters. -/
def value_to_y (min_value max_value : ℚ) (v : ℚ) : ℚ :=
  MARGIN_TOP + (1 - (v - min_value) / (max_value - min_value)) * total_height

/-- The extrema `scale_points` returns alongside the scaled list (the two
closures are recovered from them via `date_to_x` / `value_to_y`). -/
structure ScaleInfo where
  min_date : Date
  max_date : Date
  min_value : ℚ
  max_value : ℚ
deriving DecidableEq, Repr

/-- `scale_points`: min/max over dates and values (raising on an empty list,
modelled by `none`), widening an equal value range by ±1, then the affine
map of every point into the plot area. -/
def scale_points (points : List (Date × ℚ)) :
    Option (List (ℚ × ℚ) × ScaleInfo) :=
  match pyMin dateLtB (points.map Prod.fst), pyMax dateLtB (points.map Prod.fst),
        pyMin qLtB (points.map Prod.snd), pyMax qLtB (points.map Prod.snd) with
  | some min_date, some max_date, some mv, some hv =>
    let min_value := if hv = mv then mv - 1 else mv
    let max_value := if hv = mv then hv + 1 else hv
    some (points.map (fun p =>
            (date_to_x min_date max_date p.1, value_to_y min_value max_value p.2)),
          ⟨min_date, max_date, min_value, max_value⟩)
  | _, _, _, _ => none

/-- `value_ticks = [min + i * (max - min) / (tick_count - 1) for i in range(6)]`. -/
def value_ticks (min_value max_value : ℚ) : List ℚ :=
  (List.range 6).map (fun i => min_value + (i : ℚ) * (max_value - min_value) / 5)

/-- `next_month` of the quarterly label loop: advance three months, branching
on `current.month >= 10`. -/
def nextQuarter (d : Date) : Date :=
  if 10 ≤ d.month then ⟨d.year + 1, ((d.month + 3 - 1) % 12) + 1, 1⟩
  else ⟨d.year, d.month + 3, 1⟩

/-- The `while current <= max_date` loop collecting quarterly label dates,
with explicit fuel (the loop itself has no fuel; `build_svg` passes fuel
provably exceeding the iteration count). -/
def quarterDates (maxD : Date) : Date → ℕ → List Date
  | _, 0 => []
  | cur, fuel + 1 =>
    if dateLeB cur maxD then cur :: quarterDates maxD (nextQuarter cur) fuel else []

/-- Linear month index used only to size the loop fuel. -/
def mIdx (d : Date) : ℕ := d.year * 12 + d.month

/-- One line of the generated SVG document, with the interpolated numeric and
date payloads kept and the surrounding literal text abstracted away. -/
inductive SvgElem where
  /-- the `<svg ...>` opening line -/
  | svgOpen
  /-- the `<style>` line -/
  | style
  /-- the white background `<rect>` -/
  | background
  /-- the L-shaped axis frame `<path>` -/
  | axisFrame
  /-- the data `<path>` through the scaled points (`M`/`L` commands) -/
  | dataPath (pts : List (ℚ × ℚ))
  /-- the chart title `<text>` -/
  | title
  /-- the `Month` x axis caption -/
  | xCaption
  /-- the rotated y axis caption -/
  | yCaption
  /-- one `<circle>` marker at a scaled point -/
  | marker (x y : ℚ)
  /-- one y axis tick `<line>` at pixel height `y` -/
  | yTick (y : ℚ)
  /-- one y axis numeric label: tick value and pixel height -/
  | yTickLabel (value : ℚ) (y : ℚ)
  /-- one x axis tick `<line>` at pixel `x` -/
  | xTick (x : ℚ)
  /-- one x axis date label (`%b %Y` of `d`) at pixel `x` -/
  | xTickLabel (d : Date) (x : ℚ)
  /-- the `</svg>` closing line -/
  | svgClose
deriving DecidableEq, Repr

/-- `build_svg`: scale the points (propagating the raise on an empty list),
then emit the document lines in source order: header, style, background,
axis frame, the data path when non-empty, captions, one marker per point,
six value ticks with labels, quarterly date ticks with labels, closing tag. -/
def build_svg (points : List (Date × ℚ)) : Option (List SvgElem) :=
  match scale_points points with
  | none => none
  | some (scaled, info) =>
    let ticks := value_ticks info.min_value info.max_value
    let labelDates :=
      quarterDates info.max_date ⟨info.min_date.year, info.min_date.month, 1⟩
        (mIdx info.max_date + 1)
    some
      ([SvgElem.svgOpen, SvgElem.style, SvgElem.background, SvgElem.axisFrame] ++
        (if scaled = [] then [] else [SvgElem.dataPath scaled]) ++
        [SvgElem.title, SvgElem.xCaption, SvgElem.yCaption] ++
        (scaled.zip points).map (fun z => SvgElem.marker z.1.1 z.1.2) ++
        ticks.flatMap (fun v =>
          [SvgElem.yTick (value_to_y info.min_value info.max_value v),
           SvgElem.yTickLabel v (value_to_y info.min_value info.max_value v)]) ++
        labelDates.flatMap (fun d =>
          [SvgElem.xTick (date_to_x info.min_date info.max_date d),
           SvgElem.xTickLabel d (date_to_x info.min_date info.max_date d)]) ++
        [SvgElem.svgClose])

/-- The fixed dataset path `main` reads. -/
def data_path : String := "HistoricalData_1760090934890.csv"

/-- `main`, with the filesystem abstracted: `exists_file` is whether
`data_path` exists and `rows` are the data rows the CSV holds. A raised
exception (which terminates the Python process with non-zero status) is
modelled by `Except.error`. -/
def main_model (exists_file : Bool) (rows : List (String × String × String)) :
    Except String (List SvgElem) :=
  if exists_file = false then
    Except.error ("Could not find dataset at " ++ data_path)
  else
    match read_price_rows rows with
    | none => Except.error "malformed row"
    | some rs =>
      match build_svg (compute_monthly_average_diff rs) with
      | none => Except.error "empty sequence"
      | some svg => Except.ok svg

/-- The `run_pipeline` part of `main` after the existence check: read, aggregate,
render (writing the file and printing are outside the embedding's scope). -/
def run_pipeline (rows : List (String × String × String)) :
    Except String (List SvgElem) :=
  match read_price_rows rows with
  | none => Except.error "malformed row"
  | some rs =>
    match build_svg (compute_monthly_average_diff rs) with
    | none => Except.error "empty sequence"
    | some svg => Except.ok svg

/-- The value-axis labels of a document: (tick value, pixel height) pairs in
emission order. -/
def yTickLabels (es : List SvgElem) : List (ℚ × ℚ) :=
  es.filterMap (fun e =>
    match e with
    | SvgElem.yTickLabel v y => some (v, y)
    | _ => none)

/-- The date-axis labels of a document: (label date, pixel x) pairs in
emission order. -/
def xTickLabels (es : List SvgElem) : List (Date × ℚ) :=
  es.filterMap (fun e =>
    match e with
    | SvgElem.xTickLabel d x => some (d, x)
    | _ => none)

/-- First-match lookup in the association list embedding the dict (`[]` when
the key is absent). Proof-side companion of `groupRows`. -/
def lookupGroup (g : List ((ℕ × ℕ) × List ℚ)) (k : ℕ × ℕ) : List ℚ :=
  match g with
  | [] => []
  | (k', vs) :: rest => if k' = k then vs else lookupGroup rest k

/-- The diffs of the rows falling in month `k`, in input order. Proof-side
companion of `groupRows`. -/
def diffsOf (rows : List (Date × ℚ × ℚ)) (k : ℕ × ℕ) : List ℚ :=
  (rows.filter (fun r => decide (monthKey r.1 = k))).map (fun r => r.2.2 - r.2.1)

/-- The average `close - open` difference of the rows in month `k`. -/
def avgOf (rows : List (Date × ℚ × ℚ)) (k : ℕ × ℕ) : ℚ :=
  (diffsOf rows k).sum / ((diffsOf rows k).length : ℚ)

/-- Strict version of the sort comparison: `a` strictly before `b`. -/
def sortLt (a b : Date × ℚ) : Prop := dateLtB a.1 b.1 = true

instance : DecidableRel sortLt := fun a b => by unfold sortLt; infer_instance

/-- `datetime(year, month, 1)`: the first-of-month date of a group key. -/
def keyDate (k : ℕ × ℕ) : Date := ⟨k.1, k.2, 1⟩

lemma foldl_pyMin_const (v : ℚ) :
    ∀ xs : List ℚ, (∀ x ∈ xs, x = v) →
      xs.foldl (fun acc y => if qLtB y acc then y else acc) v = v := by
  intro xs
  induction xs with
  | nil => intro _; rfl
  | cons x xs ih =>
    intro h
    have hx : x = v := h x (by simp)
    have hrest : ∀ y ∈ xs, y = v := fun y hy => h y (by simp [hy])
    simp only [List.foldl_cons, hx, ite_self]
    exact ih hrest

lemma foldl_pyMax_const (v : ℚ) :
    ∀ xs : List ℚ, (∀ x ∈ xs, x = v) →
      xs.foldl (fun acc y => if qLtB acc y then y else acc) v = v := by
  intro xs
  induction xs with
  | nil => intro _; rfl
  | cons x xs ih =>
    intro h
    have hx : x = v := h x (by simp)
    have hrest : ∀ y ∈ xs, y = v := fun y hy => h y (by simp [hy])
    simp only [List.foldl_cons, hx, ite_self]
    exact ih hrest

lemma pyMin_const (v : ℚ) (l : List ℚ) (hall : ∀ x ∈ l, x = v) (hne : l ≠ []) :
    pyMin qLtB l = some v := by
  cases l with
  | nil => exact absurd rfl hne
  | cons x xs =>
    have hx : x = v := hall x (by simp)
    have hrest : ∀ y ∈ xs, y = v := fun y hy => hall y (by simp [hy])
    simp only [pyMin, hx, foldl_pyMin_const v xs hrest]

lemma pyMax_const (v : ℚ) (l : List ℚ) (hall : ∀ x ∈ l, x = v) (hne : l ≠ []) :
    pyMax qLtB l = some v := by
  cases l with
  | nil => exact absurd rfl hne
  | cons x xs =>
    have hx : x = v := hall x (by simp)
    have hrest : ∀ y ∈ xs, y = v := fun y hy => hall y (by simp [hy])
    simp only [pyMax, hx, foldl_pyMax_const v xs hrest]

lemma scale_points_nonempty (p : Date × ℚ) (ps : List (Date × ℚ)) :
    ∃ scaled info, scale_points (p :: ps) = some (scaled, info) := by
  simp only [scale_points, pyMin, pyMax, List.map_cons]
  exact ⟨_, _, rfl⟩

lemma scale_points_inv {points : List (Date × ℚ)} {scaled : List (ℚ × ℚ)}
    {info : ScaleInfo} (h : scale_points points = some (scaled, info)) :
    pyMin dateLtB (points.map Prod.fst) = some info.min_date ∧
    pyMax dateLtB (points.map Prod.fst) = some info.max_date ∧
    ∃ mv hv, pyMin qLtB (points.map Prod.snd) = some mv ∧
      pyMax qLtB (points.map Prod.snd) = some hv ∧
      info.min_value = (if hv = mv then mv - 1 else mv) ∧
      info.max_value = (if hv = mv then hv + 1 else hv) ∧
      scaled = points.map (fun p =>
        (date_to_x info.min_date info.max_date p.1,
         value_to_y info.min_value info.max_value p.2)) := by
  unfold scale_points at h
  cases h1 : pyMin dateLtB (points.map Prod.fst) with
  | none => rw [h1] at h; exact absurd h (by simp)
  | some md =>
  cases h2 : pyMax dateLtB (points.map Prod.fst) with
  | none => rw [h1, h2] at h; exact absurd h (by simp)
  | some xd =>
  cases h3 : pyMin qLtB (points.map Prod.snd) with
  | none => rw [h1, h2, h3] at h; exact absurd h (by simp)
  | some mv =>
  cases h4 : pyMax qLtB (points.map Prod.snd) with
  | none => rw [h1, h2, h3, h4] at h; exact absurd h (by simp)
  | some hv =>
  rw [h1, h2, h3, h4] at h
  simp only [Option.some.injEq, Prod.mk.injEq] at h
  obtain ⟨hs, hi⟩ := h
  subst hi
  exact ⟨rfl, rfl, mv, hv, rfl, rfl, rfl, rfl, hs.symm⟩

lemma build_svg_eq {points : List (Date × ℚ)} {scaled : List (ℚ × ℚ)}
    {info : ScaleInfo} (h : scale_points points = some (scaled, info)) :
    build_svg points =
      some
        ([SvgElem.svgOpen, SvgElem.style, SvgElem.background, SvgElem.axisFrame] ++
          (if scaled = [] then [] else [SvgElem.dataPath scaled]) ++
          [SvgElem.title, SvgElem.xCaption, SvgElem.yCaption] ++
          (scaled.zip points).map (fun z => SvgElem.marker z.1.1 z.1.2) ++
          (value_ticks info.min_value info.max_value).flatMap (fun v =>
            [SvgElem.yTick (value_to_y info.min_value info.max_value v),
             SvgElem.yTickLabel v (value_to_y info.min_value info.max_value v)]) ++
          (quarterDates info.max_date
              ⟨info.min_date.year, info.min_date.month, 1⟩
              (mIdx info.max_date + 1)).flatMap (fun d =>
            [SvgElem.xTick (date_to_x info.min_date info.max_date d),
             SvgElem.xTickLabel d (date_to_x info.min_date info.max_date d)]) ++
          [SvgElem.svgClose]) := by
  unfold build_svg
  rw [h]

lemma yTickLabels_append (a b : List SvgElem) :
    yTickLabels (a ++ b) = yTickLabels a ++ yTickLabels b := by
  simp [yTickLabels]

lemma xTickLabels_append (a b : List SvgElem) :
    xTickLabels (a ++ b) = xTickLabels a ++ xTickLabels b := by
  simp [xTickLabels]

lemma yTickLabels_yblock (l : List ℚ) (f : ℚ → ℚ) :
    yTickLabels (l.flatMap (fun v => [SvgElem.yTick (f v), SvgElem.yTickLabel v (f v)])) =
      l.map (fun v => (v, f v)) := by
  induction l with
  | nil => rfl
  | cons x xs ih => simp_all [yTickLabels]

lemma yTickLabels_xblock (l : List Date) (f : Date → ℚ) :
    yTickLabels (l.flatMap (fun d => [SvgElem.xTick (f d), SvgElem.xTickLabel d (f d)])) =
      [] := by
  induction l with
  | nil => rfl
  | cons x xs ih =>
    simp_all [yTickLabels]
    exact ih

lemma xTickLabels_yblock (l : List ℚ) (f : ℚ → ℚ) :
    xTickLabels (l.flatMap (fun v => [SvgElem.yTick (f v), SvgElem.yTickLabel v (f v)])) =
      [] := by
  induction l with
  | nil => rfl
  | cons x xs ih =>
    simp_all [xTickLabels]
    exact ih

lemma xTickLabels_xblock (l : List Date) (f : Date → ℚ) :
    xTickLabels (l.flatMap (fun d => [SvgElem.xTick (f d), SvgElem.xTickLabel d (f d)])) =
      l.map (fun d => (d, f d)) := by
  induction l with
  | nil => rfl
  | cons x xs ih => simp_all [xTickLabels]

lemma yTickLabels_markers (l : List ((ℚ × ℚ) × (Date × ℚ))) :
    yTickLabels (l.map (fun z => SvgElem.marker z.1.1 z.1.2)) = [] := by
  induction l with
  | nil => rfl
  | cons x xs ih => simp_all [yTickLabels]

lemma xTickLabels_markers (l : List ((ℚ × ℚ) × (Date × ℚ))) :
    xTickLabels (l.map (fun z => SvgElem.marker z.1.1 z.1.2)) = [] := by
  induction l with
  | nil => rfl
  | cons x xs ih => simp_all [xTickLabels]

lemma yTickLabels_nil : yTickLabels [] = [] := rfl

lemma xTickLabels_nil : xTickLabels [] = [] := rfl

lemma yTickLabels_frame :
    yTickLabels [SvgElem.svgOpen, SvgElem.style, SvgElem.background,
      SvgElem.axisFrame] = [] := rfl

lemma xTickLabels_frame :
    xTickLabels [SvgElem.svgOpen, SvgElem.style, SvgElem.background,
      SvgElem.axisFrame] = [] := rfl

lemma yTickLabels_caps :
    yTickLabels [SvgElem.title, SvgElem.xCaption, SvgElem.yCaption] = [] := rfl

lemma xTickLabels_caps :
    xTickLabels [SvgElem.title, SvgElem.xCaption, SvgElem.yCaption] = [] := rfl

lemma yTickLabels_close : yTickLabels [SvgElem.svgClose] = [] := rfl

lemma xTickLabels_close : xTickLabels [SvgElem.svgClose] = [] := rfl

lemma yTickLabels_path (pts : List (ℚ × ℚ)) :
    yTickLabels [SvgElem.dataPath pts] = [] := rfl

lemma xTickLabels_path (pts : List (ℚ × ℚ)) :
    xTickLabels [SvgElem.dataPath pts] = [] := rfl

lemma yTickLabels_build {points : List (Date × ℚ)} {scaled : List (ℚ × ℚ)}
    {info : ScaleInfo} {es : List SvgElem}
    (hs : scale_points points = some (scaled, info))
    (hb : build_svg points = some es) :
    yTickLabels es =
      (value_ticks info.min_value info.max_value).map
        (fun v => (v, value_to_y info.min_value info.max_value v)) := by
  rw [build_svg_eq hs] at hb
  simp only [Option.some.injEq] at hb
  subst hb
  by_cases hsc : scaled = [] <;>
  · rw [yTickLabels_append, yTickLabels_append, yTickLabels_append,
      yTickLabels_append, yTickLabels_append, yTickLabels_append,
      yTickLabels_markers, yTickLabels_yblock, yTickLabels_xblock]
    simp [hsc, yTickLabels]

lemma xTickLabels_build {points : List (Date × ℚ)} {scaled : List (ℚ × ℚ)}
    {info : ScaleInfo} {es : List SvgElem}
    (hs : scale_points points = some (scaled, info))
    (hb : build_svg points = some es) :
    xTickLabels es =
      (quarterDates info.max_date ⟨info.min_date.year, info.min_date.month, 1⟩
          (mIdx info.max_date + 1)).map
        (fun d => (d, date_to_x info.min_date info.max_date d)) := by
  rw [build_svg_eq hs] at hb
  simp only [Option.some.injEq] at hb
  subst hb
  by_cases hsc : scaled = [] <;>
  · rw [xTickLabels_append, xTickLabels_append, xTickLabels_append,
      xTickLabels_append, xTickLabels_append, xTickLabels_append,
      xTickLabels_markers, xTickLabels_yblock, xTickLabels_xblock]
    simp [hsc, xTickLabels]

lemma value_ticks_head (a b : ℚ) : (value_ticks a b).head? = some a := by
  simp [value_ticks, show List.range 6 = [0, 1, 2, 3, 4, 5] from rfl]

lemma value_ticks_getLast (a b : ℚ) : (value_ticks a b).getLast? = some b := by
  simp [value_ticks, show List.range 6 = [0, 1, 2, 3, 4, 5] from rfl, List.getLast?]

lemma dateLeB_refl (a : Date) : dateLeB a a = true := by
  cases a with
  | mk ay am ad => simp [dateLeB]

lemma dateLeB_total (a b : Date) : dateLeB a b = true ∨ dateLeB b a = true := by
  cases a with
  | mk ay am ad =>
    cases b with
    | mk by_ bm bd =>
      simp only [dateLeB]
      split_ifs <;> simp_all <;> omega

lemma dateLeB_trans {a b c : Date} (hab : dateLeB a b = true)
    (hbc : dateLeB b c = true) : dateLeB a c = true := by
  cases a with
  | mk ay am ad =>
    cases b with
    | mk by_ bm bd =>
      cases c with
      | mk cy cm cd =>
        simp only [dateLeB] at hab hbc ⊢
        split_ifs at hab hbc ⊢ <;> simp_all <;> omega

lemma dateLtB_asymm {a b : Date} (hab : dateLtB a b = true)
    (hba : dateLtB b a = true) : False := by
  cases a with
  | mk ay am ad =>
    cases b with
    | mk by_ bm bd =>
      simp only [dateLtB] at hab hba
      split_ifs at hab hba <;> simp_all <;> omega

lemma dateLeB_ne_lt {a b : Date} (hab : dateLeB a b = true) (hne : a ≠ b) :
    dateLtB a b = true := by
  cases a with
  | mk ay am ad =>
    cases b with
    | mk by_ bm bd =>
      simp only [Ne, Date.mk.injEq, not_and] at hne
      simp only [dateLeB] at hab
      simp only [dateLtB]
      split_ifs at hab ⊢ <;> simp_all <;> omega

lemma dateLtB_false_le {a b : Date} (h : dateLtB a b = false) :
    dateLeB b a = true := by
  cases a with
  | mk ay am ad =>
    cases b with
    | mk by_ bm bd =>
      simp only [dateLtB] at h
      simp only [dateLeB]
      split_ifs at h ⊢ <;> simp_all <;> omega

lemma dateLtB_le {a b : Date} (h : dateLtB a b = true) : dateLeB a b = true := by
  cases a with
  | mk ay am ad =>
    cases b with
    | mk by_ bm bd =>
      simp only [dateLtB] at h
      simp only [dateLeB]
      split_ifs at h ⊢ <;> simp_all <;> omega

instance : IsTotal (Date × ℚ) sortLe :=
  ⟨fun a b => by unfold sortLe; exact dateLeB_total a.1 b.1⟩

instance : IsTrans (Date × ℚ) sortLe :=
  ⟨fun _ _ _ hab hbc => dateLeB_trans hab hbc⟩

instance : IsAntisymm (Date × ℚ) sortLt :=
  ⟨fun _ _ hab hba => (dateLtB_asymm hab hba).elim⟩

/-- C1 (counterexample): contrary to the claim, `build_svg` on the empty
`MonthlyAverage` sequence does not return a rendered document: `min` of the
empty date list raises (modelled by `none`). -/
theorem c1_counterexample : build_svg ([] : List (Date × ℚ)) = none := rfl

/-- C1 (amended): for an empty `MonthlyAverage` sequence, the pipeline crashes
on the empty min/max computation: `scale_points` raises (returns `none`), and
hence `build_svg` produces no document at all. -/
theorem c1_empty_input_crashes :
    scale_points ([] : List (Date × ℚ)) = none ∧
      build_svg ([] : List (Date × ℚ)) = none :=
  ⟨rfl, rfl⟩

/-- C3: parsing the three concrete rows and aggregating yields exactly
`[(2020-01-01, 0), (2020-02-01, 5)]`, two points sorted ascending. -/
theorem c3_concrete_scenario :
    (read_price_rows
        [("1/15/2020", "$10.00", "$12.00"), ("1/20/2020", "$10.00", "$8.00"),
         ("2/10/2020", "$20.00", "$25.00")]).map compute_monthly_average_diff =
      some [((⟨2020, 1, 1⟩ : Date), (0 : ℚ)), ((⟨2020, 2, 1⟩ : Date), (5 : ℚ))] := by
  have hp10 : parseDecimal (strip_dollars "$10.00") = some 10 := by
    rw [show parseDecimal (strip_dollars "$10.00") =
      some (((10 : ℕ) : ℚ) + ((0 : ℕ) : ℚ) / (10 : ℚ) ^ (2 : ℕ)) from rfl]
    norm_num
  have hp12 : parseDecimal (strip_dollars "$12.00") = some 12 := by
    rw [show parseDecimal (strip_dollars "$12.00") =
      some (((12 : ℕ) : ℚ) + ((0 : ℕ) : ℚ) / (10 : ℚ) ^ (2 : ℕ)) from rfl]
    norm_num
  have hp8 : parseDecimal (strip_dollars "$8.00") = some 8 := by
    rw [show parseDecimal (strip_dollars "$8.00") =
      some (((8 : ℕ) : ℚ) + ((0 : ℕ) : ℚ) / (10 : ℚ) ^ (2 : ℕ)) from rfl]
    norm_num
  have hp20 : parseDecimal (strip_dollars "$20.00") = some 20 := by
    rw [show parseDecimal (strip_dollars "$20.00") =
      some (((20 : ℕ) : ℚ) + ((0 : ℕ) : ℚ) / (10 : ℚ) ^ (2 : ℕ)) from rfl]
    norm_num
  have hp25 : parseDecimal (strip_dollars "$25.00") = some 25 := by
    rw [show parseDecimal (strip_dollars "$25.00") =
      some (((25 : ℕ) : ℚ) + ((0 : ℕ) : ℚ) / (10 : ℚ) ^ (2 : ℕ)) from rfl]
    norm_num
  have hread : read_price_rows
      [("1/15/2020", "$10.00", "$12.00"), ("1/20/2020", "$10.00", "$8.00"),
       ("2/10/2020", "$20.00", "$25.00")] =
      some [((⟨2020, 1, 15⟩ : Date), (10 : ℚ), (12 : ℚ)),
            ((⟨2020, 1, 20⟩ : Date), (10 : ℚ), (8 : ℚ)),
            ((⟨2020, 2, 10⟩ : Date), (20 : ℚ), (25 : ℚ))] := by
    simp only [read_price_rows, parse_row,
      show parseDate "1/15/2020" = some (⟨2020, 1, 15⟩ : Date) from by decide,
      show parseDate "1/20/2020" = some (⟨2020, 1, 20⟩ : Date) from by decide,
      show parseDate "2/10/2020" = some (⟨2020, 2, 10⟩ : Date) from by decide,
      hp10, hp12, hp8, hp20, hp25]
  rw [hread]
  norm_num [compute_monthly_average_diff, groupRows, addToGroup, monthKey,
    List.insertionSort, List.orderedInsert, sortLe, dateLeB]

/-- C2: on a non-empty flat dataset (every value equal to `v`), `scale_points`
widens the value range to exactly `[v - 1, v + 1]`, and the renderer's value
axis spans precisely that widened range (its ticks run from `v - 1` up to
`v + 1`). -/
theorem c2_flat_range_widened (points : List (Date × ℚ)) (v : ℚ)
    (hne : points ≠ []) (hall : ∀ p ∈ points, p.2 = v) :
    ∃ scaled info es,
      scale_points points = some (scaled, info) ∧
      info.min_value = v - 1 ∧ info.max_value = v + 1 ∧
      build_svg points = some es ∧
      (yTickLabels es).map Prod.fst = value_ticks (v - 1) (v + 1) ∧
      ((yTickLabels es).map Prod.fst).head? = some (v - 1) ∧
      ((yTickLabels es).map Prod.fst).getLast? = some (v + 1) := by
  cases points with
  | nil => exact absurd rfl hne
  | cons p ps =>
    obtain ⟨scaled, info, hs⟩ := scale_points_nonempty p ps
    have hvals : ∀ x ∈ (p :: ps).map Prod.snd, x = v := by
      intro x hx
      obtain ⟨q, hq, rfl⟩ := List.mem_map.1 hx
      exact hall q hq
    obtain ⟨-, -, mv, hv, h3, h4, h5, h6, -⟩ := scale_points_inv hs
    have hmv : mv = v := by
      have := (pyMin_const v ((p :: ps).map Prod.snd) hvals (by simp)).symm.trans h3
      exact (Option.some.inj this).symm
    have hhv : hv = v := by
      have := (pyMax_const v ((p :: ps).map Prod.snd) hvals (by simp)).symm.trans h4
      exact (Option.some.inj this).symm
    rw [hmv, hhv, if_pos rfl] at h5
    rw [hmv, hhv, if_pos rfl] at h6
    obtain ⟨es, hb⟩ : ∃ es, build_svg (p :: ps) = some es := ⟨_, build_svg_eq hs⟩
    have hy := yTickLabels_build hs hb
    have hfst : (yTickLabels es).map Prod.fst = value_ticks (v - 1) (v + 1) := by
      rw [hy, h5, h6, List.map_map,
        show (Prod.fst ∘ fun w => (w, value_to_y (v - 1) (v + 1) w)) = id from
          funext fun w => rfl, List.map_id]
    refine ⟨scaled, info, es, hs, h5, h6, hb, hfst, ?_, ?_⟩
    · rw [hfst]
      exact value_ticks_head _ _
    · rw [hfst]
      exact value_ticks_getLast _ _

/-- C2 witness: the flat two-point dataset with value 3 instantiates the
widened range [2, 4]. -/
theorem c2_flat_range_widened_witness :
    ∃ scaled info es,
      scale_points [((⟨2020, 1, 1⟩ : Date), (3 : ℚ)), ((⟨2020, 2, 1⟩ : Date), (3 : ℚ))] =
        some (scaled, info) ∧
      info.min_value = 3 - 1 ∧ info.max_value = 3 + 1 ∧
      build_svg [((⟨2020, 1, 1⟩ : Date), (3 : ℚ)), ((⟨2020, 2, 1⟩ : Date), (3 : ℚ))] =
        some es ∧
      (yTickLabels es).map Prod.fst = value_ticks (3 - 1) (3 + 1) ∧
      ((yTickLabels es).map Prod.fst).head? = some (3 - 1) ∧
      ((yTickLabels es).map Prod.fst).getLast? = some (3 + 1) :=
  c2_flat_range_widened _ 3 (by decide) (by decide)

/-- C7: for every non-empty dataset the renderer emits exactly 6 value-axis
tick labels, tick `i` carrying the value `min + i * (max - min) / 5` for
`i = 0, …, 5`, spanning the (possibly widened) minimum to maximum value
inclusive. -/
theorem c7_value_axis_ticks (points : List (Date × ℚ)) (hne : points ≠ []) :
    ∃ scaled info es,
      scale_points points = some (scaled, info) ∧
      build_svg points = some es ∧
      (yTickLabels es).length = 6 ∧
      (yTickLabels es).map Prod.fst =
        (List.range 6).map
          (fun i => info.min_value + (i : ℚ) * (info.max_value - info.min_value) / 5) ∧
      ((yTickLabels es).map Prod.fst).head? = some info.min_value ∧
      ((yTickLabels es).map Prod.fst).getLast? = some info.max_value := by
  cases points with
  | nil => exact absurd rfl hne
  | cons p ps =>
    obtain ⟨scaled, info, hs⟩ := scale_points_nonempty p ps
    obtain ⟨es, hb⟩ : ∃ es, build_svg (p :: ps) = some es := ⟨_, build_svg_eq hs⟩
    have hy := yTickLabels_build hs hb
    have hfst : (yTickLabels es).map Prod.fst =
        value_ticks info.min_value info.max_value := by
      rw [hy, List.map_map,
        show (Prod.fst ∘ fun w =>
            (w, value_to_y info.min_value info.max_value w)) = id from
          funext fun w => rfl, List.map_id]
    refine ⟨scaled, info, es, hs, hb, ?_, ?_, ?_, ?_⟩
    · have hl : ((yTickLabels es).map Prod.fst).length = 6 := by
        rw [hfst]
        rfl
      simpa using hl
    · rw [hfst]
      rfl
    · rw [hfst]
      exact value_ticks_head _ _
    · rw [hfst]
      exact value_ticks_getLast _ _

/-- C7 witness: instantiation on a concrete single-point dataset. -/
theorem c7_value_axis_ticks_witness :
    ∃ scaled info es,
      scale_points [((⟨2020, 1, 1⟩ : Date), (2 : ℚ))] = some (scaled, info) ∧
      build_svg [((⟨2020, 1, 1⟩ : Date), (2 : ℚ))] = some es ∧
      (yTickLabels es).length = 6 ∧
      (yTickLabels es).map Prod.fst =
        (List.range 6).map
          (fun i => info.min_value + (i : ℚ) * (info.max_value - info.min_value) / 5) ∧
      ((yTickLabels es).map Prod.fst).head? = some info.min_value ∧
      ((yTickLabels es).map Prod.fst).getLast? = some info.max_value :=
  c7_value_axis_ticks _ (by decide)

/-- C6: for a single-point dataset the day-span denominator defaults to `1`,
the value range is widened to a span of `2 ≠ 0`, and scaling returns the
well-defined scaled point `(MARGIN_LEFT, MARGIN_TOP + total_height / 2)`. -/
theorem c6_single_point_no_div_by_zero (d : Date) (v : ℚ) :
    spanDays d d = 1 ∧
    scale_points [(d, v)] =
      some ([(MARGIN_LEFT, MARGIN_TOP + total_height / 2)],
        ⟨d, d, v - 1, v + 1⟩) ∧
    (v + 1) - (v - 1) ≠ 0 := by
  have hx : date_to_x d d d = MARGIN_LEFT := by
    simp [date_to_x, spanDays]
  have hy : value_to_y (v - 1) (v + 1) v = MARGIN_TOP + total_height / 2 := by
    unfold value_to_y
    have h1 : v - (v - 1) = 1 := by ring
    have h2 : (v + 1) - (v - 1) = 2 := by ring
    rw [h1, h2]
    ring
  refine ⟨by simp [spanDays], ?_, by norm_num⟩
  simp [scale_points, pyMin, pyMax, hx, hy]

/-- C9: when the dataset file is missing, `main` raises a file-not-found error
whose message names the fixed path, without reading any row (the outcome is
independent of the file's rows); when the file exists, the check leaves the
pipeline's behavior unchanged. -/
theorem c9_missing_file_check (rows rows' : List (String × String × String)) :
    main_model false rows =
      Except.error ("Could not find dataset at " ++ data_path) ∧
    main_model false rows = main_model false rows' ∧
    main_model true rows = run_pipeline rows :=
  ⟨rfl, rfl, rfl⟩

/-- C10: the reader's `replace` removes every `'$'` anywhere in a price field
(not only a leading symbol), so the field `"1$2.50"` parses as `12.50`. -/
theorem c10_replace_strips_all_dollars :
    (∀ s : String, '$' ∉ (strip_dollars s).data) ∧
    parse_row ("1/15/2020", "1$2.50", "$12.00") =
      some ((⟨2020, 1, 15⟩ : Date), (25 / 2 : ℚ), (12 : ℚ)) := by
  refine ⟨fun s => by simp [strip_dollars], ?_⟩
  have hopen : parseDecimal (strip_dollars "1$2.50") = some (25 / 2) := by
    rw [show parseDecimal (strip_dollars "1$2.50") =
      some (((12 : ℕ) : ℚ) + ((50 : ℕ) : ℚ) / (10 : ℚ) ^ (2 : ℕ)) from rfl]
    norm_num
  have hclose : parseDecimal (strip_dollars "$12.00") = some 12 := by
    rw [show parseDecimal (strip_dollars "$12.00") =
      some (((12 : ℕ) : ℚ) + ((0 : ℕ) : ℚ) / (10 : ℚ) ^ (2 : ℕ)) from rfl]
    norm_num
  simp only [parse_row,
    show parseDate "1/15/2020" = some (⟨2020, 1, 15⟩ : Date) from by decide,
    hopen, hclose]

lemma lookupGroup_addToGroup (g : List ((ℕ × ℕ) × List ℚ)) (k k' : ℕ × ℕ)
    (v : ℚ) :
    lookupGroup (addToGroup g k v) k' =
      if k = k' then lookupGroup g k' ++ [v] else lookupGroup g k' := by
  induction g with
  | nil =>
    by_cases h : k = k' <;> simp_all [addToGroup, lookupGroup]
  | cons e rest ih =>
    obtain ⟨k0, vs⟩ := e
    by_cases h1 : k0 = k <;> by_cases h2 : k0 = k' <;> by_cases h3 : k = k' <;>
      simp_all [addToGroup, lookupGroup]

lemma lookupGroup_foldl (rows : List (Date × ℚ × ℚ)) :
    ∀ (g : List ((ℕ × ℕ) × List ℚ)) (k : ℕ × ℕ),
      lookupGroup
          (rows.foldl (fun g r => addToGroup g (monthKey r.1) (r.2.2 - r.2.1)) g)
          k =
        lookupGroup g k ++ diffsOf rows k := by
  induction rows with
  | nil => simp [diffsOf]
  | cons r rest ih =>
    intro g k
    simp only [List.foldl_cons]
    rw [ih, lookupGroup_addToGroup]
    by_cases h : monthKey r.1 = k <;> simp [diffsOf, List.filter_cons, h]

lemma lookupGroup_groupRows (rows : List (Date × ℚ × ℚ)) (k : ℕ × ℕ) :
    lookupGroup (groupRows rows) k = diffsOf rows k := by
  simpa [groupRows, lookupGroup] using lookupGroup_foldl rows [] k

lemma keys_addToGroup (g : List ((ℕ × ℕ) × List ℚ)) (k : ℕ × ℕ) (v : ℚ) :
    (addToGroup g k v).map Prod.fst =
      if k ∈ g.map Prod.fst then g.map Prod.fst else g.map Prod.fst ++ [k] := by
  induction g with
  | nil => simp [addToGroup]
  | cons e rest ih =>
    obtain ⟨k0, vs⟩ := e
    by_cases h1 : k0 = k <;> by_cases h2 : k ∈ rest.map Prod.fst <;>
      simp_all [addToGroup] <;>
      rw [if_neg (fun h => h1 h.symm)]

lemma keys_addToGroup_nodup {g : List ((ℕ × ℕ) × List ℚ)} {k : ℕ × ℕ} {v : ℚ}
    (h : (g.map Prod.fst).Nodup) : ((addToGroup g k v).map Prod.fst).Nodup := by
  rw [keys_addToGroup]
  split_ifs with hmem
  · exact h
  · simp [List.nodup_append, h, hmem]

lemma mem_keys_addToGroup {g : List ((ℕ × ℕ) × List ℚ)} {k k' : ℕ × ℕ} {v : ℚ} :
    k' ∈ (addToGroup g k v).map Prod.fst ↔ k' ∈ g.map Prod.fst ∨ k' = k := by
  rw [keys_addToGroup]
  split_ifs with hmem
  · by_cases h : k' = k <;> simp_all
  · simp

lemma keys_foldl_nodup (rows : List (Date × ℚ × ℚ)) :
    ∀ g : List ((ℕ × ℕ) × List ℚ), (g.map Prod.fst).Nodup →
      (((rows.foldl (fun g r => addToGroup g (monthKey r.1) (r.2.2 - r.2.1)) g)).map
          Prod.fst).Nodup := by
  induction rows with
  | nil => intro g h; simpa using h
  | cons r rest ih =>
    intro g h
    simp only [List.foldl_cons]
    exact ih _ (keys_addToGroup_nodup h)

lemma keys_groupRows_nodup (rows : List (Date × ℚ × ℚ)) :
    ((groupRows rows).map Prod.fst).Nodup :=
  keys_foldl_nodup rows [] (by simp)

lemma mem_keys_foldl (rows : List (Date × ℚ × ℚ)) :
    ∀ (g : List ((ℕ × ℕ) × List ℚ)) (k : ℕ × ℕ),
      k ∈ ((rows.foldl (fun g r => addToGroup g (monthKey r.1) (r.2.2 - r.2.1)) g)).map
          Prod.fst ↔
        k ∈ g.map Prod.fst ∨ k ∈ rows.map (fun r => monthKey r.1) := by
  induction rows with
  | nil => simp
  | cons r rest ih =>
    intro g k
    simp only [List.foldl_cons, List.map_cons, List.mem_cons]
    rw [ih, mem_keys_addToGroup]
    tauto

lemma mem_keys_groupRows (rows : List (Date × ℚ × ℚ)) (k : ℕ × ℕ) :
    k ∈ (groupRows rows).map Prod.fst ↔ k ∈ rows.map (fun r => monthKey r.1) := by
  rw [groupRows, mem_keys_foldl rows [] k]
  simp

lemma lookupGroup_of_mem {g : List ((ℕ × ℕ) × List ℚ)} {e : (ℕ × ℕ) × List ℚ}
    (hnd : (g.map Prod.fst).Nodup) (he : e ∈ g) : lookupGroup g e.1 = e.2 := by
  induction g with
  | nil => simp at he
  | cons e0 rest ih =>
    obtain ⟨k0, vs0⟩ := e0
    simp only [List.map_cons, List.nodup_cons] at hnd
    rcases List.mem_cons.1 he with h | h
    · subst h
      simp [lookupGroup]
    · have hne : k0 ≠ e.1 := by
        intro hk
        exact hnd.1 (hk ▸ List.mem_map_of_mem Prod.fst h)
      simp only [lookupGroup, if_neg hne]
      exact ih hnd.2 h

lemma groupRows_entry {rows : List (Date × ℚ × ℚ)} {e : (ℕ × ℕ) × List ℚ}
    (he : e ∈ groupRows rows) : e.2 = diffsOf rows e.1 := by
  rw [← lookupGroup_groupRows rows e.1,
    lookupGroup_of_mem (keys_groupRows_nodup rows) he]

lemma compute_eq_canonical (rows : List (Date × ℚ × ℚ)) :
    compute_monthly_average_diff rows =
      List.insertionSort sortLe
        (((groupRows rows).map Prod.fst).map
          (fun k => (keyDate k, avgOf rows k))) := by
  show List.insertionSort sortLe
      ((groupRows rows).map
        (fun kd => ((⟨kd.1.1, kd.1.2, 1⟩ : Date), kd.2.sum / (kd.2.length : ℚ)))) = _
  congr 1
  rw [List.map_map]
  refine List.map_congr_left (fun e he => ?_)
  have h2 := groupRows_entry he
  simp only [Function.comp_apply, keyDate, avgOf, ← h2]

lemma averaged_keys_nodup (rows : List (Date × ℚ × ℚ)) :
    (((groupRows rows).map
        (fun kd => ((⟨kd.1.1, kd.1.2, 1⟩ : Date),
          kd.2.sum / (kd.2.length : ℚ)))).map Prod.fst).Nodup := by
  rw [List.map_map,
    show (Prod.fst ∘ fun kd : (ℕ × ℕ) × List ℚ =>
        ((⟨kd.1.1, kd.1.2, 1⟩ : Date), kd.2.sum / (kd.2.length : ℚ))) =
      (keyDate ∘ Prod.fst) from funext fun kd => rfl,
    ← List.map_map]
  refine List.Nodup.map ?_ (keys_groupRows_nodup rows)
  intro a b hab
  simp only [keyDate, Date.mk.injEq, and_true] at hab
  exact Prod.ext hab.1 hab.2

/-- C5: for every input row sequence, the aggregated output is strictly
ascending by month key (hence has no duplicate keys), and every output entry
is dated the first day of its calendar month. -/
theorem c5_sorted_unique_first_of_month (rows : List (Date × ℚ × ℚ)) :
    (compute_monthly_average_diff rows).Pairwise sortLt ∧
    ∀ p ∈ compute_monthly_average_diff rows, p.1.day = 1 := by
  have hsorted : (compute_monthly_average_diff rows).Sorted sortLe :=
    List.sorted_insertionSort sortLe _
  have hperm : List.Perm (compute_monthly_average_diff rows)
      ((groupRows rows).map
        (fun kd => ((⟨kd.1.1, kd.1.2, 1⟩ : Date), kd.2.sum / (kd.2.length : ℚ)))) :=
    List.perm_insertionSort sortLe _
  constructor
  · have hnd : ((compute_monthly_average_diff rows).map Prod.fst).Nodup :=
      ((hperm.map Prod.fst).nodup_iff).2 (averaged_keys_nodup rows)
    have hne : (compute_monthly_average_diff rows).Pairwise
        (fun a b : Date × ℚ => a.1 ≠ b.1) :=
      (List.pairwise_map).1 hnd
    exact (List.Pairwise.and hsorted hne).imp
      (fun h => dateLeB_ne_lt h.1 h.2)
  · intro p hp
    have hp' := hperm.mem_iff.1 hp
    obtain ⟨kd, -, rfl⟩ := List.mem_map.1 hp'
    rfl

lemma canonical_keys_nodup (rows : List (Date × ℚ × ℚ)) (f : (ℕ × ℕ) → ℚ) :
    ((((groupRows rows).map Prod.fst).map
        (fun k => (keyDate k, f k))).map Prod.fst).Nodup := by
  rw [List.map_map,
    show (Prod.fst ∘ fun k : ℕ × ℕ => (keyDate k, f k)) = keyDate from
      funext fun k => rfl]
  refine List.Nodup.map ?_ (keys_groupRows_nodup rows)
  intro a b hab
  simp only [keyDate, Date.mk.injEq, and_true] at hab
  exact Prod.ext hab.1 hab.2

lemma sorted_strict_canonical (rows : List (Date × ℚ × ℚ)) (f : (ℕ × ℕ) → ℚ) :
    (List.insertionSort sortLe
      (((groupRows rows).map Prod.fst).map
        (fun k => (keyDate k, f k)))).Pairwise sortLt := by
  have hsorted : (List.insertionSort sortLe
      (((groupRows rows).map Prod.fst).map
        (fun k => (keyDate k, f k)))).Sorted sortLe :=
    List.sorted_insertionSort sortLe _
  have hperm := List.perm_insertionSort sortLe
    (((groupRows rows).map Prod.fst).map (fun k => (keyDate k, f k)))
  have hnd : ((List.insertionSort sortLe
      (((groupRows rows).map Prod.fst).map
        (fun k => (keyDate k, f k)))).map Prod.fst).Nodup :=
    ((hperm.map Prod.fst).nodup_iff).2 (canonical_keys_nodup rows f)
  have hne := (List.pairwise_map).1 hnd
  exact (List.Pairwise.and hsorted hne).imp (fun h => dateLeB_ne_lt h.1 h.2)

/-- Permutation invariance of the aggregation under the exact-rational
idealization of `float` arithmetic: group sums, counts and the sorted output
depend only on the multiset of rows. Note that this is a property of the
idealization, not of the real program: Python's sequential float summation is
order-dependent (e.g. `(0.1 + 0.2) + 0.3 ≠ (0.3 + 0.2) + 0.1` in binary64),
so permuting rows can perturb a month's average in the last bits. -/
theorem compute_perm_invariant_exact (rows rows' : List (Date × ℚ × ℚ))
    (h : List.Perm rows rows') :
    compute_monthly_average_diff rows = compute_monthly_average_diff rows' := by
  rw [compute_eq_canonical rows, compute_eq_canonical rows']
  have havg : ∀ k, avgOf rows k = avgOf rows' k := by
    intro k
    have hp : List.Perm (diffsOf rows k) (diffsOf rows' k) := by
      unfold diffsOf
      exact (h.filter (fun r => decide (monthKey r.1 = k))).map
        (fun r => r.2.2 - r.2.1)
    unfold avgOf
    rw [hp.sum_eq, hp.length_eq]
  have hg : (fun k => (keyDate k, avgOf rows k)) =
      (fun k => (keyDate k, avgOf rows' k)) :=
    funext fun k => by rw [havg k]
  rw [hg]
  have hkeys : List.Perm ((groupRows rows).map Prod.fst)
      ((groupRows rows').map Prod.fst) := by
    refine List.perm_of_nodup_nodup_toFinset_eq (keys_groupRows_nodup rows)
      (keys_groupRows_nodup rows') ?_
    ext k
    simp only [List.mem_toFinset, mem_keys_groupRows]
    exact (h.map (fun r => monthKey r.1)).mem_iff
  have hperm : List.Perm
      (List.insertionSort sortLe
        (((groupRows rows).map Prod.fst).map (fun k => (keyDate k, avgOf rows' k))))
      (List.insertionSort sortLe
        (((groupRows rows').map Prod.fst).map
          (fun k => (keyDate k, avgOf rows' k)))) :=
    ((List.perm_insertionSort sortLe _).trans
      (hkeys.map (fun k => (keyDate k, avgOf rows' k)))).trans
      (List.perm_insertionSort sortLe _).symm
  exact List.eq_of_perm_of_sorted hperm
    (sorted_strict_canonical rows (fun k => avgOf rows' k))
    (sorted_strict_canonical rows' (fun k => avgOf rows' k))

/-- Concrete instance of the idealized invariance: swapping the two rows of a
dataset leaves the (exact-arithmetic) output unchanged. -/
theorem compute_perm_invariant_exact_example :
    compute_monthly_average_diff
        [((⟨2020, 2, 10⟩ : Date), (20 : ℚ), (25 : ℚ)),
         ((⟨2020, 1, 15⟩ : Date), (10 : ℚ), (12 : ℚ))] =
      compute_monthly_average_diff
        [((⟨2020, 1, 15⟩ : Date), (10 : ℚ), (12 : ℚ)),
         ((⟨2020, 2, 10⟩ : Date), (20 : ℚ), (25 : ℚ))] :=
  compute_perm_invariant_exact _ _
    (List.Perm.swap ((⟨2020, 1, 15⟩ : Date), (10 : ℚ), (12 : ℚ))
      ((⟨2020, 2, 10⟩ : Date), (20 : ℚ), (25 : ℚ)) [])

lemma nextQuarter_valid {d : Date} (h1 : 1 ≤ d.month) (h2 : d.month ≤ 12) :
    1 ≤ (nextQuarter d).month ∧ (nextQuarter d).month ≤ 12 ∧
    (nextQuarter d).day = 1 ∧ mIdx (nextQuarter d) = mIdx d + 3 := by
  cases d with
  | mk dy dm dd =>
    simp only [nextQuarter, mIdx]
    split_ifs <;> simp_all <;> omega

lemma dateLeB_mIdx {cur maxD : Date} (hc1 : 1 ≤ cur.month) (hc2 : cur.month ≤ 12)
    (hcd : cur.day = 1) (hm1 : 1 ≤ maxD.month) (hm2 : maxD.month ≤ 12)
    (hmd : 1 ≤ maxD.day) :
    dateLeB cur maxD = true ↔ mIdx cur ≤ mIdx maxD := by
  cases cur with
  | mk cy cm cd =>
    cases maxD with
    | mk my mm md =>
      simp only [mIdx] at *
      simp only [dateLeB]
      split_ifs <;> simp_all <;> omega

lemma dateLeB_mIdx_mono {a b : Date} (ha1 : 1 ≤ a.month) (ha2 : a.month ≤ 12)
    (hb1 : 1 ≤ b.month) (hb2 : b.month ≤ 12) (h : dateLeB a b = true) :
    mIdx a ≤ mIdx b := by
  cases a with
  | mk ay am ad =>
    cases b with
    | mk by_ bm bd =>
      simp only [mIdx] at *
      simp only [dateLeB] at h
      split_ifs at h <;> simp_all <;> omega

lemma foldl_min_date (xs : List Date) :
    ∀ acc : Date,
      (xs.foldl (fun acc y => if dateLtB y acc then y else acc) acc) ∈ acc :: xs ∧
      dateLeB (xs.foldl (fun acc y => if dateLtB y acc then y else acc) acc) acc =
        true ∧
      ∀ x ∈ xs,
        dateLeB (xs.foldl (fun acc y => if dateLtB y acc then y else acc) acc) x =
          true := by
  induction xs with
  | nil => intro acc; simp [dateLeB_refl]
  | cons x xs ih =>
    intro acc
    simp only [List.foldl_cons]
    obtain ⟨hmem, hacc, hall⟩ := ih (if dateLtB x acc then x else acc)
    have hle_acc : dateLeB (if dateLtB x acc then x else acc) acc = true := by
      split_ifs with h
      · exact dateLtB_le h
      · exact dateLeB_refl acc
    have hle_x : dateLeB (if dateLtB x acc then x else acc) x = true := by
      split_ifs with h
      · exact dateLeB_refl x
      · exact dateLtB_false_le (by simpa using h)
    refine ⟨?_, dateLeB_trans hacc hle_acc, ?_⟩
    · rcases List.mem_cons.1 hmem with h | h
      · rw [h]
        split_ifs
        · simp
        · simp
      · simp [h]
    · intro z hz
      rcases List.mem_cons.1 hz with h | h
      · rw [h]
        exact dateLeB_trans hacc hle_x
      · exact hall z h

lemma foldl_max_date (xs : List Date) :
    ∀ acc : Date,
      (xs.foldl (fun acc y => if dateLtB acc y then y else acc) acc) ∈ acc :: xs ∧
      dateLeB acc (xs.foldl (fun acc y => if dateLtB acc y then y else acc) acc) =
        true ∧
      ∀ x ∈ xs,
        dateLeB x (xs.foldl (fun acc y => if dateLtB acc y then y else acc) acc) =
          true := by
  induction xs with
  | nil => intro acc; simp [dateLeB_refl]
  | cons x xs ih =>
    intro acc
    simp only [List.foldl_cons]
    obtain ⟨hmem, hacc, hall⟩ := ih (if dateLtB acc x then x else acc)
    have hle_acc : dateLeB acc (if dateLtB acc x then x else acc) = true := by
      split_ifs with h
      · exact dateLtB_le h
      · exact dateLeB_refl acc
    have hle_x : dateLeB x (if dateLtB acc x then x else acc) = true := by
      split_ifs with h
      · exact dateLeB_refl x
      · exact dateLtB_false_le (by simpa using h)
    refine ⟨?_, dateLeB_trans hle_acc hacc, ?_⟩
    · rcases List.mem_cons.1 hmem with h | h
      · rw [h]
        split_ifs
        · simp
        · simp
      · simp [h]
    · intro z hz
      rcases List.mem_cons.1 hz with h | h
      · rw [h]
        exact dateLeB_trans hle_x hacc
      · exact hall z h

lemma pyMin_date_spec {l : List Date} (hne : l ≠ []) :
    ∃ m, pyMin dateLtB l = some m ∧ m ∈ l ∧ ∀ x ∈ l, dateLeB m x = true := by
  cases l with
  | nil => exact absurd rfl hne
  | cons x xs =>
    obtain ⟨hmem, hacc, hall⟩ := foldl_min_date xs x
    refine ⟨_, rfl, hmem, ?_⟩
    intro z hz
    rcases List.mem_cons.1 hz with h | h
    · rw [h]; exact hacc
    · exact hall z h

lemma pyMax_date_spec {l : List Date} (hne : l ≠ []) :
    ∃ m, pyMax dateLtB l = some m ∧ m ∈ l ∧ ∀ x ∈ l, dateLeB x m = true := by
  cases l with
  | nil => exact absurd rfl hne
  | cons x xs =>
    obtain ⟨hmem, hacc, hall⟩ := foldl_max_date xs x
    refine ⟨_, rfl, hmem, ?_⟩
    intro z hz
    rcases List.mem_cons.1 hz with h | h
    · rw [h]; exact hacc
    · exact hall z h

lemma quarterDates_spec (maxD : Date) (hm1 : 1 ≤ maxD.month)
    (hm2 : maxD.month ≤ 12) (hmd : 1 ≤ maxD.day) :
    ∀ (fuel : ℕ) (cur : Date), 1 ≤ cur.month → cur.month ≤ 12 → cur.day = 1 →
      mIdx maxD + 1 ≤ mIdx cur + fuel →
      ((dateLeB cur maxD = true →
          (quarterDates maxD cur fuel).head? = some cur) ∧
       (dateLeB cur maxD = false → quarterDates maxD cur fuel = []) ∧
       List.Chain' (fun a b => b = nextQuarter a) (quarterDates maxD cur fuel) ∧
       (∀ d ∈ quarterDates maxD cur fuel,
         dateLeB d maxD = true ∧ d.day = 1 ∧ 1 ≤ d.month ∧ d.month ≤ 12) ∧
       (∀ d ∈ quarterDates maxD cur fuel,
         dateLeB (nextQuarter d) maxD = true →
           nextQuarter d ∈ quarterDates maxD cur fuel)) := by
  intro fuel
  induction fuel with
  | zero =>
    intro cur h1 h2 h3 hfuel
    refine ⟨fun hle => absurd ((dateLeB_mIdx h1 h2 h3 hm1 hm2 hmd).1 hle)
        (by omega),
      fun _ => rfl, by simp [quarterDates], by simp [quarterDates],
      by simp [quarterDates]⟩
  | succ fuel ih =>
    intro cur h1 h2 h3 hfuel
    by_cases hle : dateLeB cur maxD = true
    · obtain ⟨hq1, hq2, hq3, hq4⟩ := nextQuarter_valid h1 h2
      have ihn := ih (nextQuarter cur) hq1 hq2 hq3 (by omega)
      have hunf : quarterDates maxD cur (fuel + 1) =
          cur :: quarterDates maxD (nextQuarter cur) fuel := by
        simp [quarterDates, hle]
      rw [hunf]
      refine ⟨fun _ => rfl, fun hf => absurd hle (by simp [hf]), ?_, ?_, ?_⟩
      · refine List.chain'_cons'.2 ⟨?_, ihn.2.2.1⟩
        intro y hy
        cases hguard : dateLeB (nextQuarter cur) maxD with
        | true =>
          have := ihn.1 hguard
          rw [this] at hy
          exact (Option.mem_some_iff.1 hy).symm ▸ rfl
        | false =>
          rw [ihn.2.1 hguard] at hy
          simp at hy
      · intro d hd
        rcases List.mem_cons.1 hd with h | h
        · subst h
          exact ⟨hle, h3, h1, h2⟩
        · exact ihn.2.2.2.1 d h
      · intro d hd hnext
        rcases List.mem_cons.1 hd with h | h
        · subst h
          refine List.mem_cons.2 (Or.inr ?_)
          exact List.mem_of_mem_head? (by rw [ihn.1 hnext]; rfl)
        · exact List.mem_cons.2 (Or.inr (ihn.2.2.2.2 d h hnext))
    · have hle' : dateLeB cur maxD = false := by
        cases hb : dateLeB cur maxD with
        | true => exact absurd hb hle
        | false => rfl
      have hunf : quarterDates maxD cur (fuel + 1) = [] := by
        simp [quarterDates, hle']
      rw [hunf]
      exact ⟨fun hf => absurd hf hle, fun _ => rfl, by simp, by simp, by simp⟩

/-- C8: for every non-empty dataset of valid dates, the renderer's date-axis
labels start at the first day of the minimum date's month, advance exactly
three calendar months between consecutive labels (`nextQuarter`, which adds 3
to the linear month index), never exceed the maximum date, cover every
reachable quarter up to it, and each label sits at the x-coordinate
`date_to_x` assigns to the first day of its month. -/
theorem c8_quarterly_labels (points : List (Date × ℚ))
    (hvm : ∀ p ∈ points, 1 ≤ p.1.month ∧ p.1.month ≤ 12 ∧ 1 ≤ p.1.day)
    (hne : points ≠ []) :
    ∃ scaled info es,
      scale_points points = some (scaled, info) ∧
      build_svg points = some es ∧
      (∀ q ∈ xTickLabels es,
        q.2 = date_to_x info.min_date info.max_date q.1 ∧
        q.1.day = 1 ∧ dateLeB q.1 info.max_date = true) ∧
      ((xTickLabels es).map Prod.fst).head? =
        some ⟨info.min_date.year, info.min_date.month, 1⟩ ∧
      List.Chain' (fun a b => b = nextQuarter a) ((xTickLabels es).map Prod.fst) ∧
      (∀ d ∈ (xTickLabels es).map Prod.fst,
        dateLeB (nextQuarter d) info.max_date = true →
          nextQuarter d ∈ (xTickLabels es).map Prod.fst) ∧
      (∀ d : Date, 1 ≤ d.month → d.month ≤ 12 →
        mIdx (nextQuarter d) = mIdx d + 3) := by
  cases points with
  | nil => exact absurd rfl hne
  | cons p ps =>
    obtain ⟨scaled, info, hs⟩ := scale_points_nonempty p ps
    obtain ⟨es, hb⟩ : ∃ es, build_svg (p :: ps) = some es := ⟨_, build_svg_eq hs⟩
    obtain ⟨hmind, hmaxd, -⟩ := scale_points_inv hs
    have hdne : (p :: ps).map Prod.fst ≠ [] := by simp
    obtain ⟨mind, hmin_eq, hmin_mem, hmin_le⟩ := pyMin_date_spec hdne
    obtain ⟨maxd, hmax_eq, hmax_mem, hmax_ge⟩ := pyMax_date_spec hdne
    have hmind' : mind = info.min_date := Option.some.inj (hmin_eq ▸ hmind)
    have hmaxd' : maxd = info.max_date := Option.some.inj (hmax_eq ▸ hmaxd)
    subst hmind' hmaxd'
    have hvmin : 1 ≤ info.min_date.month ∧ info.min_date.month ≤ 12 ∧
        1 ≤ info.min_date.day := by
      obtain ⟨q, hq, hq'⟩ := List.mem_map.1 hmin_mem
      exact hq' ▸ hvm q hq
    have hvmax : 1 ≤ info.max_date.month ∧ info.max_date.month ≤ 12 ∧
        1 ≤ info.max_date.day := by
      obtain ⟨q, hq, hq'⟩ := List.mem_map.1 hmax_mem
      exact hq' ▸ hvm q hq
    have hminmax : dateLeB info.min_date info.max_date = true :=
      hmin_le info.max_date hmax_mem
    have hfirst_le : dateLeB (⟨info.min_date.year, info.min_date.month, 1⟩ : Date)
        info.max_date = true := by
      refine (dateLeB_mIdx (by exact hvmin.1) (by exact hvmin.2.1) rfl
        hvmax.1 hvmax.2.1 hvmax.2.2).2 ?_
      have : mIdx info.min_date ≤ mIdx info.max_date :=
        dateLeB_mIdx_mono hvmin.1 hvmin.2.1 hvmax.1 hvmax.2.1 hminmax
      simpa [mIdx] using this
    have hspec := quarterDates_spec info.max_date hvmax.1 hvmax.2.1 hvmax.2.2
      (mIdx info.max_date + 1) ⟨info.min_date.year, info.min_date.month, 1⟩
      hvmin.1 hvmin.2.1 rfl (by omega)
    have hx := xTickLabels_build hs hb
    have hfstmap : (xTickLabels es).map Prod.fst =
        quarterDates info.max_date ⟨info.min_date.year, info.min_date.month, 1⟩
          (mIdx info.max_date + 1) := by
      rw [hx, List.map_map,
        show (Prod.fst ∘ fun d =>
            (d, date_to_x info.min_date info.max_date d)) = id from
          funext fun d => rfl, List.map_id]
    refine ⟨scaled, info, es, hs, hb, ?_, ?_, ?_, ?_,
      fun d hd1 hd2 => (nextQuarter_valid hd1 hd2).2.2.2⟩
    · intro q hq
      rw [hx] at hq
      obtain ⟨d, hd, hq'⟩ := List.mem_map.1 hq
      have hd' := hspec.2.2.2.1 d hd
      exact hq' ▸ ⟨rfl, hd'.2.1, hd'.1⟩
    · rw [hfstmap]
      exact hspec.1 hfirst_le
    · rw [hfstmap]
      exact hspec.2.2.1
    · rw [hfstmap]
      exact hspec.2.2.2.2

/-- C8 witness: instantiation on a concrete two-point dataset spanning
January to May 2020. -/
theorem c8_quarterly_labels_witness :
    ∃ scaled info es,
      scale_points [((⟨2020, 1, 1⟩ : Date), (1 : ℚ)), ((⟨2020, 5, 1⟩ : Date), (2 : ℚ))] =
        some (scaled, info) ∧
      build_svg [((⟨2020, 1, 1⟩ : Date), (1 : ℚ)), ((⟨2020, 5, 1⟩ : Date), (2 : ℚ))] =
        some es ∧
      (∀ q ∈ xTickLabels es,
        q.2 = date_to_x info.min_date info.max_date q.1 ∧
        q.1.day = 1 ∧ dateLeB q.1 info.max_date = true) ∧
      ((xTickLabels es).map Prod.fst).head? =
        some ⟨info.min_date.year, info.min_date.month, 1⟩ ∧
      List.Chain' (fun a b => b = nextQuarter a) ((xTickLabels es).map Prod.fst) ∧
      (∀ d ∈ (xTickLabels es).map Prod.fst,
        dateLeB (nextQuarter d) info.max_date = true →
          nextQuarter d ∈ (xTickLabels es).map Prod.fst) ∧
      (∀ d : Date, 1 ≤ d.month → d.month ≤ 12 →
        mIdx (nextQuarter d) = mIdx d + 3) :=
  c8_quarterly_labels _ (by decide) (by decide)

end StockChart
